import Mathlib

/-!
# Verification of the logfmter `Logfmter` formatter

A shallow embedding of `src/logfmter/formatter.py`.  Python strings are
modelled as lists of characters (`Str`), Python's dynamically typed log values
as the inductive `Value`, and a `logging.LogRecord` as an ordered attribute
dictionary together with its message and exception info.  Every definition
mirrors the corresponding Python function; dictionary semantics (insertion
order, in-place update on key collision) are modelled by `dinsert`.
-/

/-- Python strings, modelled as lists of characters. -/
abbrev Str := List Char

/-- Python's `str.replace(old, new)` for a single-character needle:
replace every occurrence of `old` in `s` by `new`, scanning left to right
(the replacement text itself is never rescanned). -/
def pyReplace : Str → Char → Str → Str
  | [], _, _ => []
  | c :: cs, old, new =>
      if c = old then new ++ pyReplace cs old new else c :: pyReplace cs old new

/-- Python's `c in s` membership test for a single character. -/
def hasChar : Str → Char → Bool
  | [], _ => false
  | c :: cs, x => if c = x then true else hasChar cs x

/-- Membership test on a list of strings (Python's `key in RESERVED`). -/
def memStr : List Str → Str → Bool
  | [], _ => false
  | s :: ss, k => if s = k then true else memStr ss k

/--
A Python value reaching the formatter, as discriminated by
`Logfmter.format_value`: `None`, a `bool`, a number (we model the integral
numerics; `str(n)` is its decimal representation), or any other object
carried by its string form `str(value)`.  In Python `bool` is a subclass of
`int`, which is why the source tests `bool` before `numbers.Number`; the
separate constructors record the outcome of that ordered dispatch.
-/
inductive Value where
  | null
  | bool (b : Bool)
  | num (n : Int)
  | str (s : Str)
deriving DecidableEq

/-- The decimal digit characters. -/
def digitChar (d : Nat) : Char :=
  match d with
  | 0 => '0' | 1 => '1' | 2 => '2' | 3 => '3' | 4 => '4'
  | 5 => '5' | 6 => '6' | 7 => '7' | 8 => '8' | _ => '9'

/-- Digit-extraction loop for `natToStr`; the fuel only bounds the recursion
depth (`fuel = n` always suffices since `n / 10 < n` for `n ≥ 10`). -/
def natToStrAux : Nat → Nat → Str
  | 0, n => [digitChar n]
  | fuel + 1, n =>
      if n < 10 then [digitChar n]
      else natToStrAux fuel (n / 10) ++ [digitChar (n % 10)]

/-- Decimal representation of a natural number (Python's `str(n)` for `n ≥ 0`). -/
def natToStr (n : Nat) : Str := natToStrAux n n

/-- Decimal representation of an integer (Python's `str(n)`). -/
def intToStr : Int → Str
  | Int.ofNat m => natToStr m
  | Int.negSucc m => '-' :: natToStr (m + 1)

namespace Logfmter

/--
`Logfmter.format_string`: process the provided string with any necessary
quoting and/or escaping.  Mirrors the source: the three need-checks are all
computed on the original input, then double quotes are escaped, then newlines,
then the result is wrapped in double quotes when the original contained a
space or an equals sign, and an empty result is replaced by `""`.
-/
def format_string (value : Str) : Str :=
  let needs_dquote_escaping := hasChar value '"'
  let needs_newline_escaping := hasChar value '\n'
  let needs_quoting := hasChar value ' ' || hasChar value '='
  let value1 := if needs_dquote_escaping then pyReplace value '"' ['\\', '"'] else value
  let value2 := if needs_newline_escaping then pyReplace value1 '\n' ['\\', 'n'] else value1
  let value3 := if needs_quoting then '"' :: value2 ++ ['"'] else value2
  if value3 = [] then ['"', '"'] else value3

/--
`Logfmter.format_value`: map the provided value to the proper logfmt
formatted string.  `None` becomes the empty string, booleans become
`true`/`false`, numbers their decimal representation, and everything else is
its string form passed through `format_string`.
-/
def format_value (value : Value) : Str :=
  match value with
  | .null => []
  | .bool b => if b then "true".toList else "false".toList
  | .num n => intToStr n
  | .str s => format_string s

/--
`Logfmter.normalize_key`: an empty key becomes a single underscore, spaces
are converted to underscores and newlines are escaped to the two characters
backslash-n.
-/
def normalize_key (key : Str) : Str :=
  if key = [] then ['_']
  else pyReplace (pyReplace key ' ' ['_']) '\n' ['\\', 'n']

end Logfmter

/-- The exception info triple `(type, exc, tb)` attached to a log record,
carried as the data the traceback renderer consumes: the exception type's
name, the exception message (`str(exc)`), and the rendered stack-frame lines
(empty when no traceback is available). -/
structure ExcInfo where
  typeName : Str
  message : Str
  frames : List Str
deriving DecidableEq

/-- Modelled from the spec: the multi-line textual trace a language runtime
would print for an unhandled fault (produced in the source by the
standard-library `traceback.print_exception`, which lives outside src/):
the frame-by-frame call stack when frames are available, then the final
`Type: message` line, each line terminated by a newline.  With no frames it
degrades to just the type-and-message line. -/
def renderExcText (e : ExcInfo) : Str :=
  let lastLine :=
    if e.message = [] then e.typeName ++ ['\n']
    else e.typeName ++ ": ".toList ++ e.message ++ ['\n']
  if e.frames = [] then lastLine
  else
    "Traceback (most recent call last):".toList ++ ['\n']
      ++ e.frames.foldr (fun fr acc => fr ++ ['\n'] ++ acc) []
      ++ lastLine

/-- Python's `value.rstrip("\n")`: remove every trailing newline character. -/
def rstripNl (s : Str) : Str := (s.reverse.dropWhile (fun c => c = '\n')).reverse

/-- `record.msg`: either plain message text or a structured mapping. -/
inductive Msg where
  | text (s : Str)
  | dict (m : List (Str × Value))
deriving DecidableEq

/-- A `logging.LogRecord`: its message, its `exc_info`, and the remaining
attribute dictionary `record.__dict__` as an insertion-ordered association
list (holding both the reserved attributes such as `levelname` and any
caller-supplied extra fields). -/
structure LogRecord where
  msg : Msg
  excInfo : Option ExcInfo
  attrs : List (Str × Value)
deriving DecidableEq

/-- Reserved log record attributes: they are filtered out of the extra
parameters contributed by the record. -/
def RESERVED : List Str :=
  [ "args".toList, "asctime".toList, "created".toList, "exc_info".toList,
    "exc_text".toList, "filename".toList, "funcName".toList,
    "levelname".toList, "levelno".toList, "lineno".toList, "message".toList,
    "module".toList, "msecs".toList, "msg".toList, "name".toList,
    "pathname".toList, "process".toList, "processName".toList,
    "relativeCreated".toList, "stack_info".toList, "thread".toList,
    "threadName".toList ]

/-- Python dictionary insertion: update the value in place when the key is
already present (keeping its original position), otherwise append the new
pair at the end. -/
def dinsert {β : Type} : List (Str × β) → Str → β → List (Str × β)
  | [], k, v => [(k, v)]
  | p :: ps, k, v => if p.1 = k then (k, v) :: ps else p :: dinsert ps k v

/-- Association-list lookup (Python dictionary / attribute lookup). -/
def alookup {β : Type} : List (Str × β) → Str → Option β
  | [], _ => none
  | p :: ps, k => if p.1 = k then some p.2 else alookup ps k

/-- Modelled from the spec: `record.getMessage()` is standard-library code
outside src/; it renders the event's plain message text (argument
interpolation is outside this model, so the rendered text is the message
itself; the structured branch of `format` never calls it). -/
def LogRecord.getMessage (r : LogRecord) : Str :=
  match r.msg with
  | .text s => s
  | .dict _ => []

namespace Logfmter

/-- `Logfmter.format_exc_info`: render the traceback, drop the trailing
newline(s) with `rstrip("\n")`, and escape the result. -/
def format_exc_info (e : ExcInfo) : Str :=
  format_string (rstripNl (renderExcText e))

/-- `Logfmter.format_params`: join each parameter as `key=format_value(value)`
with single spaces. -/
def format_params (params : List (Str × Value)) : Str :=
  List.intercalate [' ']
    (params.map (fun kv => kv.1 ++ '=' :: format_value kv.2))

/-- `Logfmter.get_extra`: the record's attributes with reserved keys
filtered out and every remaining key normalized, assembled as a Python
dictionary comprehension. -/
def get_extra (r : LogRecord) : List (Str × Value) :=
  (r.attrs.filter (fun kv => !(memStr RESERVED kv.1))).foldl
    (fun d kv => dinsert d (normalize_key kv.1) kv.2) []

end Logfmter

/-- A `Logfmter` instance after `__init__`: the normalized default keys, the
normalized-key mapping dictionary, and the optional date format. -/
structure Logfmter where
  keys : List Str
  mapping : List (Str × Str)
  datefmt : Option Str
deriving DecidableEq

namespace Logfmter

/-- `Logfmter.__init__`: normalize every default key, and build the mapping
dictionary with normalized keys. -/
def init (keys : List Str) (mapping : List (Str × Str)) (datefmt : Option Str) :
    Logfmter :=
  { keys := keys.map normalize_key
    mapping :=
      (mapping.map (fun kv => (normalize_key kv.1, kv.2))).foldl
        (fun d kv => dinsert d kv.1 kv.2) []
    datefmt := datefmt }

/-- The default configuration: `keys=["at"]`, `mapping={"at": "levelname"}`. -/
def default : Logfmter :=
  init ["at".toList] [("at".toList, "levelname".toList)] none

/-- Modelled from the spec: `logging.Formatter.formatTime` is standard-library
code outside src/.  The spec only requires a deterministic rendering of the
record's timestamp according to the optional `timeFormat`; we model it as a
rendering of the record's `created` attribute, prefixed by the format spec
when one is configured. -/
def formatTime (r : LogRecord) (datefmt : Option Str) : Str :=
  let created : Str :=
    match alookup r.attrs ("created".toList) with
    | some (.num n) => intToStr n
    | some (.str s) => s
    | some (.bool b) => if b then "true".toList else "false".toList
    | some .null => []
    | none => []
  match datefmt with
  | some fmt => fmt ++ created
  | none => created

/-- The first step of `Logfmter.format`: if the `asctime` attribute will be
used, generate it and store it on the record (`record.asctime = ...`). -/
def applyAsctime (f : Logfmter) (r : LogRecord) : LogRecord :=
  if "asctime".toList ∈ f.keys ∨ "asctime".toList ∈ f.mapping.map Prod.snd then
    let t := Value.str (formatTime r f.datefmt)
    { r with attrs := dinsert r.attrs ("asctime".toList) t }
  else r

/-- Resolve a default key to the record attribute that supplies its value:
the mapping's target when the key is mapped, the key itself otherwise. -/
def resolveAttr (f : Logfmter) (key : Str) : Str :=
  match alookup f.mapping key with
  | some a => a
  | none => key

/-- The for-loop of `Logfmter.format` over `self.keys`: append a
`key=format_value(value)` token for every default key whose resolved
attribute exists on the record, silently skipping the others. -/
def defaultTokens (f : Logfmter) (attrs : List (Str × Value)) : List Str :=
  f.keys.foldl
    (fun tokens key =>
      match alookup attrs (resolveAttr f key) with
      | none => tokens
      | some v => tokens ++ [key ++ '=' :: format_value v])
    []

/-- The parameter dictionary of `Logfmter.format`: the structured message
mapping with normalized keys when `record.msg` is a dict, otherwise
`{"msg": record.getMessage(), **extra}`. -/
def paramsOf (r : LogRecord) : List (Str × Value) :=
  match r.msg with
  | .dict m => m.foldl (fun d kv => dinsert d (normalize_key kv.1) kv.2) []
  | .text _ =>
      (get_extra r).foldl (fun d kv => dinsert d kv.1 kv.2)
        (dinsert [] ("msg".toList) (.str r.getMessage))

/-- The token list assembled by `Logfmter.format` (after the `asctime` step):
the default-key tokens, then the formatted parameters when non-empty, then
the `exc_info` token when exception info is present. -/
def tokensOf (f : Logfmter) (r : LogRecord) : List Str :=
  let defaults := defaultTokens f r.attrs
  let formatted_params := format_params (paramsOf r)
  let tokens1 := if formatted_params = [] then defaults
    else defaults ++ [formatted_params]
  match r.excInfo with
  | none => tokens1
  | some e => tokens1 ++ ["exc_info=".toList ++ format_exc_info e]

/-- `Logfmter.format`: returns the formatted line together with the record
as it stands after the call (the source mutates `record` in place when it
stores `asctime`; the pair makes that effect explicit). -/
def format (f : Logfmter) (record : LogRecord) : Str × LogRecord :=
  let r := applyAsctime f record
  (List.intercalate [' '] (tokensOf f r), r)

end Logfmter


/-- The string escaper exactly as the specification words it: first replace
every double quote and every newline unconditionally, then wrap in double
quotes if and only if the original text contained a space or an equals sign,
and return the two-character token `""` when the result is empty. -/
def escapeSpec (s : Str) : Str :=
  let escaped := pyReplace (pyReplace s '"' ['\\', '"']) '\n' ['\\', 'n']
  let wrapped := if hasChar s ' ' || hasChar s '=' then '"' :: escaped ++ ['"'] else escaped
  if wrapped = [] then ['"', '"'] else wrapped

/-- The trailing-newline removal as the specification words it: strip exactly
one trailing newline if present. -/
def stripOneTrailingNl (s : Str) : Str :=
  if s.getLast? = some '\n' then s.dropLast else s

/-- The error renderer as the specification words it: render the trace,
strip exactly one trailing newline, escape. -/
def renderErrorSpec (e : ExcInfo) : Str :=
  Logfmter.format_string (stripOneTrailingNl (renderExcText e))

/-- A well-formed emitted key: non-empty, with no space and no newline. -/
def KeyOk (k : Str) : Prop := k ≠ [] ∧ ' ' ∉ k ∧ '\n' ∉ k

/-- A well-formed token of the output line: non-empty, containing no raw
newline, and neither starting nor ending with a space. -/
def TokOk (t : Str) : Prop :=
  t ≠ [] ∧ '\n' ∉ t ∧ t.head? ≠ some ' ' ∧ t.getLast? ≠ some ' '

section Lemmas

theorem hasChar_iff (s : Str) (c : Char) : hasChar s c = true ↔ c ∈ s := by
  induction s with
  | nil => simp [hasChar]
  | cons a t ih =>
    by_cases h : a = c
    · subst h
      simp [hasChar]
    · simp only [hasChar, if_neg h, List.mem_cons, ih]
      exact ⟨Or.inr, fun hc => hc.elim (fun he => absurd he.symm h) id⟩

theorem hasChar_eq_false_iff (s : Str) (c : Char) : hasChar s c = false ↔ c ∉ s := by
  rw [← Bool.not_eq_true, not_iff_not, hasChar_iff]

theorem memStr_iff (l : List Str) (k : Str) : memStr l k = true ↔ k ∈ l := by
  induction l with
  | nil => simp [memStr]
  | cons a t ih =>
    by_cases h : a = k
    · subst h
      simp [memStr]
    · simp only [memStr, if_neg h, List.mem_cons, ih]
      exact ⟨Or.inr, fun hc => hc.elim (fun he => absurd he.symm h) id⟩

theorem pyReplace_of_not_mem {s : Str} {c : Char} {r : Str} (h : c ∉ s) :
    pyReplace s c r = s := by
  induction s with
  | nil => rfl
  | cons a t ih =>
    simp only [List.mem_cons, not_or] at h
    have hac : ¬ a = c := fun he => h.1 he.symm
    simp [pyReplace, if_neg hac, ih h.2]

theorem mem_pyReplace {x : Char} {s : Str} {c : Char} {r : Str}
    (h : x ∈ pyReplace s c r) : x ∈ s ∨ x ∈ r := by
  induction s with
  | nil => simp [pyReplace] at h
  | cons a t ih =>
    simp only [pyReplace] at h
    by_cases hac : a = c
    · rw [if_pos hac] at h
      rcases List.mem_append.1 h with h | h
      · exact Or.inr h
      · rcases ih h with h' | h'
        · exact Or.inl (List.mem_cons_of_mem _ h')
        · exact Or.inr h'
    · rw [if_neg hac] at h
      rcases List.mem_cons.1 h with h | h
      · exact Or.inl (h ▸ List.mem_cons_self _ _)
      · rcases ih h with h' | h'
        · exact Or.inl (List.mem_cons_of_mem _ h')
        · exact Or.inr h'

theorem not_mem_pyReplace_self {s : Str} {c : Char} {r : Str} (h : c ∉ r) :
    c ∉ pyReplace s c r := by
  induction s with
  | nil => simp [pyReplace]
  | cons a t ih =>
    simp only [pyReplace]
    by_cases hac : a = c
    · rw [if_pos hac]
      simp only [List.mem_append, not_or]
      exact ⟨h, ih⟩
    · rw [if_neg hac]
      simp only [List.mem_cons, not_or]
      exact ⟨fun hx => hac hx.symm, ih⟩

theorem count_pyReplace {x c : Char} {r : Str} (hxc : x ≠ c) (hxr : x ∉ r)
    (s : Str) : (pyReplace s c r).count x = s.count x := by
  induction s with
  | nil => rfl
  | cons a t ih =>
    simp only [pyReplace]
    by_cases hac : a = c
    · rw [if_pos hac, List.count_append, List.count_eq_zero.2 hxr, ih,
        List.count_cons]
      subst hac
      simp [hxc, Ne.symm hxc]
    · rw [if_neg hac, List.count_cons, List.count_cons, ih]

theorem pyReplace_ne_nil {s : Str} {c : Char} {r : Str} (hr : r ≠ [])
    (hs : s ≠ []) : pyReplace s c r ≠ [] := by
  cases s with
  | nil => exact absurd rfl hs
  | cons a t =>
    simp only [pyReplace]
    by_cases hac : a = c
    · simp only [if_pos hac]
      intro h
      exact hr (List.append_eq_nil.1 h).1
    · simp [if_neg hac]

end Lemmas

theorem head?_ne_of_not_mem {l : Str} {c : Char} (h : c ∉ l) :
    l.head? ≠ some c := by
  intro he
  exact h (List.mem_of_mem_head? (he ▸ rfl))

theorem getLast?_ne_of_not_mem {l : Str} {c : Char} (h : c ∉ l) :
    l.getLast? ≠ some c := by
  intro he
  exact h (List.mem_of_getLast?_eq_some he)

theorem intercalate_nil_list (sep : Str) :
    List.intercalate sep ([] : List Str) = [] := rfl

theorem intercalate_single (sep : Str) (a : Str) :
    List.intercalate sep [a] = a := by
  simp [List.intercalate]

theorem intercalate_cons₂ (sep : Str) (a b : Str) (l : List Str) :
    List.intercalate sep (a :: b :: l) = a ++ sep ++ List.intercalate sep (b :: l) := by
  simp [List.intercalate]

theorem format_string_eq_escapeSpec (s : Str) :
    Logfmter.format_string s = escapeSpec s := by
  unfold Logfmter.format_string escapeSpec
  cases h1 : hasChar s '"' with
  | true =>
    cases h2 : hasChar s '\n' with
    | true => simp [h1, h2]
    | false =>
      have hn : '\n' ∉ pyReplace s '"' ['\\', '"'] := by
        intro hm
        rcases mem_pyReplace hm with hm | hm
        · exact ((hasChar_eq_false_iff s '\n').1 h2) hm
        · simp at hm
      simp [h1, h2, pyReplace_of_not_mem hn]
  | false =>
    have hq : pyReplace s '"' ['\\', '"'] = s :=
      pyReplace_of_not_mem ((hasChar_eq_false_iff s '"').1 h1)
    cases h2 : hasChar s '\n' with
    | true => simp [h1, h2, hq]
    | false =>
      have hn : '\n' ∉ s := (hasChar_eq_false_iff s '\n').1 h2
      simp [h1, h2, hq, pyReplace_of_not_mem hn]

theorem ite_nil_ne_nil (w : Str) : (if w = [] then ['"', '"'] else w) ≠ [] := by
  by_cases h : w = [] <;> simp [h]

theorem escapeSpec_ne_nil (s : Str) : escapeSpec s ≠ [] := by
  unfold escapeSpec
  exact ite_nil_ne_nil _

theorem format_string_ne_nil (s : Str) : Logfmter.format_string s ≠ [] := by
  rw [format_string_eq_escapeSpec]
  exact escapeSpec_ne_nil s

theorem mem_escapeSpec {x : Char} {s : Str} (h : x ∈ escapeSpec s) :
    x ∈ s ∨ x = '\\' ∨ x = 'n' ∨ x = '"' := by
  have chase : x ∈ pyReplace (pyReplace s '"' ['\\', '"']) '\n' ['\\', 'n'] →
      x ∈ s ∨ x = '\\' ∨ x = 'n' ∨ x = '"' := by
    intro hm
    rcases mem_pyReplace hm with hm | hm
    · rcases mem_pyReplace hm with hm | hm
      · exact Or.inl hm
      · simp only [List.mem_cons, List.mem_singleton] at hm
        rcases hm with hm | hm
        · exact Or.inr (Or.inl hm)
        · exact Or.inr (Or.inr (Or.inr (by simpa using hm)))
    · simp only [List.mem_cons, List.mem_singleton] at hm
      rcases hm with hm | hm
      · exact Or.inr (Or.inl hm)
      · exact Or.inr (Or.inr (Or.inl (by simpa using hm)))
  simp only [escapeSpec] at h
  by_cases hq : (hasChar s ' ' || hasChar s '=') = true
  · rw [if_pos hq] at h
    rw [if_neg (by simp)] at h
    rcases List.mem_cons.1 h with h | h
    · exact Or.inr (Or.inr (Or.inr h))
    · rcases List.mem_append.1 h with h | h
      · exact chase h
      · exact Or.inr (Or.inr (Or.inr (by simpa using h)))
  · rw [if_neg hq] at h
    by_cases hB : pyReplace (pyReplace s '"' ['\\', '"']) '\n' ['\\', 'n'] = []
    · rw [if_pos hB] at h
      exact Or.inr (Or.inr (Or.inr (by simpa using h)))
    · rw [if_neg hB] at h
      exact chase h

theorem newline_not_mem_escapeSpec (s : Str) : '\n' ∉ escapeSpec s := by
  have h2 : '\n' ∉ pyReplace (pyReplace s '"' ['\\', '"']) '\n' ['\\', 'n'] :=
    not_mem_pyReplace_self (by simp)
  intro h
  simp only [escapeSpec] at h
  by_cases hq : (hasChar s ' ' || hasChar s '=') = true
  · rw [if_pos hq, if_neg (by simp)] at h
    rcases List.mem_cons.1 h with h | h
    · simp at h
    · rcases List.mem_append.1 h with h | h
      · exact h2 h
      · simp at h
  · rw [if_neg hq] at h
    by_cases hB : pyReplace (pyReplace s '"' ['\\', '"']) '\n' ['\\', 'n'] = []
    · rw [if_pos hB] at h
      simp at h
    · rw [if_neg hB] at h
      exact h2 h

theorem newline_not_mem_format_string (s : Str) :
    '\n' ∉ Logfmter.format_string s := by
  rw [format_string_eq_escapeSpec]
  exact newline_not_mem_escapeSpec s

theorem space_mem_format_string {s : Str} (h : ' ' ∈ Logfmter.format_string s) :
    ' ' ∈ s := by
  rw [format_string_eq_escapeSpec] at h
  rcases mem_escapeSpec h with h | h | h | h
  · exact h
  all_goals simp at h

theorem escapeSpec_quoted {s : Str} (hq : (hasChar s ' ' || hasChar s '=') = true) :
    (escapeSpec s).head? = some '"' ∧ (escapeSpec s).getLast? = some '"' := by
  simp only [escapeSpec]
  rw [if_pos hq, if_neg (by simp)]
  constructor
  · rfl
  · rw [List.getLast?_concat]

theorem escapeSpec_head_ne_space (s : Str) : (escapeSpec s).head? ≠ some ' ' := by
  by_cases hq : (hasChar s ' ' || hasChar s '=') = true
  · rw [(escapeSpec_quoted hq).1]
    simp
  · apply head?_ne_of_not_mem
    intro hmem
    have hs : ' ' ∉ s := by
      intro hm
      exact hq (by rw [Bool.or_eq_true]; exact Or.inl ((hasChar_iff s ' ').2 hm))
    rcases mem_escapeSpec hmem with h | h | h | h
    · exact hs h
    all_goals simp at h

theorem escapeSpec_getLast_ne_space (s : Str) :
    (escapeSpec s).getLast? ≠ some ' ' := by
  by_cases hq : (hasChar s ' ' || hasChar s '=') = true
  · rw [(escapeSpec_quoted hq).2]
    simp
  · apply getLast?_ne_of_not_mem
    intro hmem
    have hs : ' ' ∉ s := by
      intro hm
      exact hq (by rw [Bool.or_eq_true]; exact Or.inl ((hasChar_iff s ' ').2 hm))
    rcases mem_escapeSpec hmem with h | h | h | h
    · exact hs h
    all_goals simp at h

theorem format_string_quoted {s : Str} (h : ' ' ∈ s ∨ '=' ∈ s) :
    (Logfmter.format_string s).head? = some '"' ∧
    (Logfmter.format_string s).getLast? = some '"' := by
  rw [format_string_eq_escapeSpec]
  apply escapeSpec_quoted
  rw [Bool.or_eq_true, hasChar_iff, hasChar_iff]
  exact h

theorem format_string_head_ne_space (s : Str) :
    (Logfmter.format_string s).head? ≠ some ' ' := by
  rw [format_string_eq_escapeSpec]
  exact escapeSpec_head_ne_space s

theorem format_string_getLast_ne_space (s : Str) :
    (Logfmter.format_string s).getLast? ≠ some ' ' := by
  rw [format_string_eq_escapeSpec]
  exact escapeSpec_getLast_ne_space s

theorem digitChar_mem (d : Nat) : digitChar d ∈ "0123456789".toList := by
  unfold digitChar
  split <;> decide

theorem mem_natToStrAux {x : Char} :
    ∀ fuel n, x ∈ natToStrAux fuel n → x ∈ "0123456789".toList := by
  intro fuel
  induction fuel with
  | zero =>
    intro n h
    have : x = digitChar n := by simpa [natToStrAux] using h
    exact this ▸ digitChar_mem n
  | succ fuel ih =>
    intro n h
    simp only [natToStrAux] at h
    by_cases hn : n < 10
    · rw [if_pos hn] at h
      have : x = digitChar n := by simpa using h
      exact this ▸ digitChar_mem n
    · rw [if_neg hn] at h
      rcases List.mem_append.1 h with h | h
      · exact ih _ h
      · have : x = digitChar (n % 10) := by simpa using h
        exact this ▸ digitChar_mem _

theorem mem_intToStr {x : Char} {n : Int} (h : x ∈ intToStr n) :
    x ∈ '-' :: "0123456789".toList := by
  cases n with
  | ofNat m =>
    simp only [intToStr, natToStr] at h
    exact List.mem_cons_of_mem _ (mem_natToStrAux m m h)
  | negSucc m =>
    simp only [intToStr, natToStr] at h
    rcases List.mem_cons.1 h with h | h
    · exact h ▸ List.mem_cons_self _ _
    · exact List.mem_cons_of_mem _ (mem_natToStrAux _ _ h)

theorem space_not_mem_intToStr (n : Int) : ' ' ∉ intToStr n := by
  intro h
  exact absurd (mem_intToStr h) (by decide)

theorem newline_not_mem_intToStr (n : Int) : '\n' ∉ intToStr n := by
  intro h
  exact absurd (mem_intToStr h) (by decide)

theorem newline_not_mem_format_value (v : Value) :
    '\n' ∉ Logfmter.format_value v := by
  cases v with
  | null => simp [Logfmter.format_value]
  | bool b => cases b <;> decide
  | num n => exact newline_not_mem_intToStr n
  | str s => exact newline_not_mem_format_string s

theorem format_value_head_ne_space (v : Value) :
    (Logfmter.format_value v).head? ≠ some ' ' := by
  cases v with
  | null => simp [Logfmter.format_value]
  | bool b => cases b <;> decide
  | num n => exact head?_ne_of_not_mem (space_not_mem_intToStr n)
  | str s => exact format_string_head_ne_space s

theorem format_value_getLast_ne_space (v : Value) :
    (Logfmter.format_value v).getLast? ≠ some ' ' := by
  cases v with
  | null => simp [Logfmter.format_value]
  | bool b => cases b <;> decide
  | num n => exact getLast?_ne_of_not_mem (space_not_mem_intToStr n)
  | str s => exact format_string_getLast_ne_space s

theorem normalize_key_ne_nil (k : Str) : Logfmter.normalize_key k ≠ [] := by
  unfold Logfmter.normalize_key
  by_cases hk : k = []
  · simp [hk]
  · rw [if_neg hk]
    exact pyReplace_ne_nil (by simp) (pyReplace_ne_nil (by simp) hk)

theorem space_not_mem_normalize_key (k : Str) :
    ' ' ∉ Logfmter.normalize_key k := by
  unfold Logfmter.normalize_key
  by_cases hk : k = []
  · rw [if_pos hk]
    decide
  · rw [if_neg hk]
    intro h
    rcases mem_pyReplace h with h | h
    · exact not_mem_pyReplace_self (by simp) h
    · simp at h

theorem newline_not_mem_normalize_key (k : Str) :
    '\n' ∉ Logfmter.normalize_key k := by
  unfold Logfmter.normalize_key
  by_cases hk : k = []
  · rw [if_pos hk]
    decide
  · rw [if_neg hk]
    exact not_mem_pyReplace_self (by simp)

theorem count_normalize_key {c : Char} (hc1 : c ≠ ' ') (hc2 : c ≠ '\n')
    (hc3 : c ≠ '_') (hc4 : c ≠ '\\') (hc5 : c ≠ 'n') (k : Str) :
    (Logfmter.normalize_key k).count c = k.count c := by
  unfold Logfmter.normalize_key
  by_cases hk : k = []
  · subst hk
    rw [if_pos rfl]
    simp [List.count_cons, hc3]
  · rw [if_neg hk, count_pyReplace hc2 (by simp [hc4, hc5]),
      count_pyReplace hc1 (by simp [hc3])]

theorem count_pyReplace_single {x c : Char} (hxc : x ≠ c) (s : Str) :
    (pyReplace s c [x]).count x = s.count x + s.count c := by
  induction s with
  | nil => rfl
  | cons a t ih =>
    simp only [pyReplace]
    by_cases hac : a = c
    · subst hac
      rw [if_pos rfl, List.singleton_append, List.count_cons, ih,
        List.count_cons, List.count_cons]
      simp [hxc, Ne.symm hxc]
      omega
    · rw [if_neg hac, List.count_cons, List.count_cons, List.count_cons, ih]
      have hca : ¬ (c = a) := fun he => hac he.symm
      simp [hca, hac]
      omega

theorem count_underscore_normalize_key {k : Str} (hk : k ≠ []) :
    (Logfmter.normalize_key k).count '_' = k.count '_' + k.count ' ' := by
  unfold Logfmter.normalize_key
  rw [if_neg hk, count_pyReplace (by decide) (by decide),
    count_pyReplace_single (by decide)]

theorem keyOk_normalize_key (k : Str) : KeyOk (Logfmter.normalize_key k) :=
  ⟨normalize_key_ne_nil k, space_not_mem_normalize_key k,
    newline_not_mem_normalize_key k⟩

theorem keyOk_msg : KeyOk ("msg".toList) := ⟨by decide, by decide, by decide⟩

theorem tokOk_keyValue {k : Str} (hk : KeyOk k) (v : Value) :
    TokOk (k ++ '=' :: Logfmter.format_value v) := by
  obtain ⟨hne, hsp, hnl⟩ := hk
  refine ⟨?_, ?_, ?_, ?_⟩
  · intro h
    exact hne (List.append_eq_nil.1 h).1
  · intro h
    rcases List.mem_append.1 h with h | h
    · exact hnl h
    · rcases List.mem_cons.1 h with h | h
      · simp at h
      · exact newline_not_mem_format_value v h
  · rw [List.head?_append_of_ne_nil _ hne]
    exact head?_ne_of_not_mem hsp
  · rw [List.getLast?_append_of_ne_nil _ (by simp)]
    by_cases hv : Logfmter.format_value v = []
    · rw [hv]
      decide
    · rw [show ('=' :: Logfmter.format_value v) = ['='] ++ Logfmter.format_value v
        from rfl, List.getLast?_append_of_ne_nil _ hv]
      exact format_value_getLast_ne_space v

theorem tokOk_intercalate {l : List Str} (hne : l ≠ [])
    (h : ∀ t ∈ l, TokOk t) : TokOk (List.intercalate [' '] l) := by
  induction l with
  | nil => exact absurd rfl hne
  | cons a t ih =>
    cases t with
    | nil =>
      rw [intercalate_single]
      exact h a (List.mem_cons_self _ _)
    | cons b t2 =>
      rw [intercalate_cons₂]
      obtain ⟨ha1, ha2, ha3, ha4⟩ := h a (List.mem_cons_self _ _)
      obtain ⟨hr1, hr2, hr3, hr4⟩ :=
        ih (by simp) (fun x hx => h x (List.mem_cons_of_mem _ hx))
      refine ⟨?_, ?_, ?_, ?_⟩
      · intro hcontr
        exact hr1 (List.append_eq_nil.1 hcontr).2
      · intro hm
        rcases List.mem_append.1 hm with hm | hm
        · rcases List.mem_append.1 hm with hm | hm
          · exact ha2 hm
          · simp at hm
        · exact hr2 hm
      · rw [List.append_assoc, List.head?_append_of_ne_nil _ ha1]
        exact ha3
      · rw [List.getLast?_append_of_ne_nil _ hr1]
        exact hr4

theorem mem_dinsert {β : Type} {p : Str × β} {d : List (Str × β)} {k : Str}
    {v : β} (h : p ∈ dinsert d k v) : p ∈ d ∨ p = (k, v) := by
  induction d with
  | nil => simpa [dinsert] using h
  | cons q t ih =>
    simp only [dinsert] at h
    by_cases hq : q.1 = k
    · rw [if_pos hq] at h
      rcases List.mem_cons.1 h with h | h
      · exact Or.inr h
      · exact Or.inl (List.mem_cons_of_mem _ h)
    · rw [if_neg hq] at h
      rcases List.mem_cons.1 h with h | h
      · exact Or.inl (h ▸ List.mem_cons_self _ _)
      · rcases ih h with h | h
        · exact Or.inl (List.mem_cons_of_mem _ h)
        · exact Or.inr h

theorem keys_foldl_dinsert {β : Type} (P : Str → Prop) (g : (Str × β) → Str) :
    ∀ (l : List (Str × β)) (d0 : List (Str × β)),
      (∀ p ∈ d0, P p.1) → (∀ kv ∈ l, P (g kv)) →
      ∀ p ∈ l.foldl (fun d kv => dinsert d (g kv) kv.2) d0, P p.1 := by
  intro l
  induction l with
  | nil =>
    intro d0 h0 _ p hp
    exact h0 p hp
  | cons kv t ih =>
    intro d0 h0 hl p hp
    simp only [List.foldl_cons] at hp
    refine ih _ ?_ (fun x hx => hl x (List.mem_cons_of_mem _ hx)) p hp
    intro q hq
    rcases mem_dinsert hq with hq | hq
    · exact h0 q hq
    · rw [hq]
      exact hl kv (List.mem_cons_self _ _)

theorem get_extra_keyOk (r : LogRecord) :
    ∀ p ∈ Logfmter.get_extra r, KeyOk p.1 := by
  unfold Logfmter.get_extra
  exact keys_foldl_dinsert KeyOk (fun kv => Logfmter.normalize_key kv.1) _ []
    (by simp) (fun kv _ => keyOk_normalize_key kv.1)

theorem paramsOf_keyOk (r : LogRecord) :
    ∀ p ∈ Logfmter.paramsOf r, KeyOk p.1 := by
  unfold Logfmter.paramsOf
  cases hm : r.msg with
  | text s =>
    apply keys_foldl_dinsert KeyOk Prod.fst (Logfmter.get_extra r) _ _
      (fun kv hkv => get_extra_keyOk r kv hkv)
    intro p hp
    rcases mem_dinsert hp with hp | hp
    · simp at hp
    · rw [hp]
      exact keyOk_msg
  | dict m =>
    exact keys_foldl_dinsert KeyOk (fun kv => Logfmter.normalize_key kv.1) m []
      (by simp) (fun kv _ => keyOk_normalize_key kv.1)

theorem format_params_tokOk {params : List (Str × Value)} (hne : params ≠ [])
    (hk : ∀ p ∈ params, KeyOk p.1) :
    TokOk (Logfmter.format_params params) := by
  unfold Logfmter.format_params
  apply tokOk_intercalate (by simpa using hne)
  intro t ht
  rcases List.mem_map.1 ht with ⟨kv, hkv, rfl⟩
  exact tokOk_keyValue (hk kv hkv) kv.2

theorem defaultTokens_go (f : Logfmter) (attrs : List (Str × Value)) :
    ∀ (keys : List Str) (acc : List Str),
      keys.foldl (fun tokens key =>
        match alookup attrs (Logfmter.resolveAttr f key) with
        | none => tokens
        | some v => tokens ++ [key ++ '=' :: Logfmter.format_value v]) acc
      = acc ++ keys.filterMap (fun key =>
          (alookup attrs (Logfmter.resolveAttr f key)).map
            (fun v => key ++ '=' :: Logfmter.format_value v)) := by
  intro keys
  induction keys with
  | nil =>
    intro acc
    simp
  | cons k t ih =>
    intro acc
    simp only [List.foldl_cons, List.filterMap_cons]
    cases hg : alookup attrs (Logfmter.resolveAttr f k) with
    | none =>
      simp only [hg, Option.map_none']
      exact ih acc
    | some v =>
      simp only [hg, Option.map_some']
      rw [ih, List.append_assoc]
      rfl

theorem defaultTokens_eq (f : Logfmter) (attrs : List (Str × Value)) :
    Logfmter.defaultTokens f attrs
      = f.keys.filterMap (fun key =>
          (alookup attrs (Logfmter.resolveAttr f key)).map
            (fun v => key ++ '=' :: Logfmter.format_value v)) := by
  unfold Logfmter.defaultTokens
  rw [defaultTokens_go]
  rfl

theorem tokOk_defaultTokens {ks : List Str} {mp : List (Str × Str)}
    {df : Option Str} {attrs : List (Str × Value)} :
    ∀ t ∈ Logfmter.defaultTokens (Logfmter.init ks mp df) attrs, TokOk t := by
  intro t ht
  rw [defaultTokens_eq] at ht
  rcases List.mem_filterMap.1 ht with ⟨key, hkey, hmap⟩
  rcases Option.map_eq_some'.1 hmap with ⟨v, _, rfl⟩
  have hkeys : (Logfmter.init ks mp df).keys = ks.map Logfmter.normalize_key := rfl
  rw [hkeys] at hkey
  rcases List.mem_map.1 hkey with ⟨k0, _, rfl⟩
  exact tokOk_keyValue (keyOk_normalize_key k0) v

theorem tokOk_excToken (e : ExcInfo) :
    TokOk ("exc_info=".toList ++ Logfmter.format_exc_info e) := by
  have hpre : ("exc_info=".toList : Str) ≠ [] := by decide
  refine ⟨?_, ?_, ?_, ?_⟩
  · intro h
    exact hpre (List.append_eq_nil.1 h).1
  · intro h
    rcases List.mem_append.1 h with h | h
    · revert h
      decide
    · exact newline_not_mem_format_string _ h
  · rw [List.head?_append_of_ne_nil _ hpre]
    decide
  · have hne2 : Logfmter.format_exc_info e ≠ [] := format_string_ne_nil _
    rw [List.getLast?_append_of_ne_nil _ hne2]
    exact format_string_getLast_ne_space _

theorem tokOk_tokensOf {ks : List Str} {mp : List (Str × Str)} {df : Option Str}
    {r : LogRecord} :
    ∀ t ∈ Logfmter.tokensOf (Logfmter.init ks mp df) r, TokOk t := by
  intro t ht
  simp only [Logfmter.tokensOf] at ht
  have hdef : ∀ t ∈ Logfmter.defaultTokens (Logfmter.init ks mp df) r.attrs,
      TokOk t := tokOk_defaultTokens
  have hparams : Logfmter.format_params (Logfmter.paramsOf r) ≠ [] →
      TokOk (Logfmter.format_params (Logfmter.paramsOf r)) := by
    intro hne
    apply format_params_tokOk _ (paramsOf_keyOk r)
    intro hp
    exact hne (by rw [hp]; rfl)
  cases hexc : r.excInfo with
  | none =>
    rw [hexc] at ht
    by_cases hfp : Logfmter.format_params (Logfmter.paramsOf r) = []
    · rw [if_pos hfp] at ht
      exact hdef t ht
    · rw [if_neg hfp] at ht
      rcases List.mem_append.1 ht with ht | ht
      · exact hdef t ht
      · rw [List.mem_singleton.1 ht]
        exact hparams hfp
  | some e =>
    rw [hexc] at ht
    by_cases hfp : Logfmter.format_params (Logfmter.paramsOf r) = []
    · rw [if_pos hfp] at ht
      rcases List.mem_append.1 ht with ht | ht
      · exact hdef t ht
      · rw [List.mem_singleton.1 ht]
        exact tokOk_excToken e
    · rw [if_neg hfp] at ht
      rcases List.mem_append.1 ht with ht | ht
      · rcases List.mem_append.1 ht with ht | ht
        · exact hdef t ht
        · rw [List.mem_singleton.1 ht]
          exact hparams hfp
      · rw [List.mem_singleton.1 ht]
        exact tokOk_excToken e

theorem tokOk_join {l : List Str} (h : ∀ t ∈ l, TokOk t) :
    '\n' ∉ List.intercalate [' '] l ∧
    (List.intercalate [' '] l).head? ≠ some ' ' ∧
    (List.intercalate [' '] l).getLast? ≠ some ' ' := by
  cases l with
  | nil =>
    refine ⟨by simp [intercalate_nil_list], by simp [intercalate_nil_list], ?_⟩
    simp [intercalate_nil_list]
  | cons a t =>
    obtain ⟨_, h2, h3, h4⟩ := tokOk_intercalate (l := a :: t) (by simp) h
    exact ⟨h2, h3, h4⟩

theorem foldl_dinsert_map {β : Type} (g : (Str × β) → Str) :
    ∀ (l : List (Str × β)) (d0 : List (Str × β)),
      l.foldl (fun d kv => dinsert d (g kv) kv.2) d0
        = (l.map (fun kv => (g kv, kv.2))).foldl
            (fun d kv => dinsert d kv.1 kv.2) d0 := by
  intro l
  induction l with
  | nil => intro d0; rfl
  | cons kv t ih =>
    intro d0
    simp only [List.foldl_cons, List.map_cons]
    exact ih _

theorem dinsert_of_not_mem_keys {β : Type} {d : List (Str × β)} {k : Str}
    {v : β} (h : k ∉ d.map Prod.fst) : dinsert d k v = d ++ [(k, v)] := by
  induction d with
  | nil => rfl
  | cons q t ih =>
    simp only [List.map_cons, List.mem_cons, not_or] at h
    simp only [dinsert]
    rw [if_neg (fun he => h.1 he.symm)]
    rw [ih h.2]
    rfl

theorem foldl_dinsert_nodup {β : Type} :
    ∀ (l : List (Str × β)) (d0 : List (Str × β)),
      (l.map Prod.fst).Nodup →
      (∀ k ∈ l.map Prod.fst, k ∉ d0.map Prod.fst) →
      l.foldl (fun d kv => dinsert d kv.1 kv.2) d0 = d0 ++ l := by
  intro l
  induction l with
  | nil =>
    intro d0 _ _
    simp
  | cons kv t ih =>
    intro d0 hnd hdisj
    simp only [List.map_cons, List.nodup_cons] at hnd
    simp only [List.foldl_cons]
    rw [dinsert_of_not_mem_keys
      (hdisj kv.1 (List.mem_map_of_mem Prod.fst (List.mem_cons_self kv t)))]
    have hd2 : ∀ k ∈ t.map Prod.fst, k ∉ (d0 ++ [kv]).map Prod.fst := by
      intro k hk
      rw [List.map_append]
      intro hmem
      rcases List.mem_append.1 hmem with hmem | hmem
      · exact hdisj k (List.mem_cons_of_mem _ hk) hmem
      · have hkkv : k = kv.1 := by simpa using hmem
        exact hnd.1 (hkkv ▸ hk)
    rw [ih (d0 ++ [kv]) hnd.2 hd2]
    simp

theorem intercalate_append_single (sep : Str) :
    ∀ (l : List Str) (x : Str), List.intercalate sep (l ++ [x])
      = if l = [] then x else List.intercalate sep l ++ sep ++ x := by
  intro l
  induction l with
  | nil =>
    intro x
    simp [intercalate_single]
  | cons a t ih =>
    intro x
    cases t with
    | nil =>
      rw [if_neg (by simp)]
      rw [show (([a] : List Str) ++ [x]) = [a, x] from rfl, intercalate_cons₂,
        intercalate_single, intercalate_single]
    | cons b t2 =>
      rw [if_neg (by simp)]
      rw [show ((a :: b :: t2 : List Str) ++ [x]) = a :: ((b :: t2) ++ [x])
        from rfl]
      rw [show ((b :: t2 : List Str) ++ [x]) = b :: (t2 ++ [x]) from rfl,
        intercalate_cons₂]
      rw [show (b :: (t2 ++ [x]) : List Str) = (b :: t2) ++ [x] from rfl, ih,
        if_neg (by simp), intercalate_cons₂]
      simp [List.append_assoc]

theorem alookup_dinsert_ne {β : Type} {d : List (Str × β)} {k k' : Str} {v : β}
    (h : k' ≠ k) : alookup (dinsert d k v) k' = alookup d k' := by
  induction d with
  | nil =>
    simp only [dinsert, alookup]
    rw [if_neg (fun he => h he.symm)]
  | cons q t ih =>
    simp only [dinsert]
    by_cases hq : q.1 = k
    · rw [if_pos hq]
      simp only [alookup]
      rw [if_neg (fun he : k = k' => h he.symm), if_neg
        (fun he : q.1 = k' => h (hq ▸ he).symm)]
    · rw [if_neg hq]
      simp only [alookup]
      by_cases hq' : q.1 = k'
      · rw [if_pos hq', if_pos hq']
      · rw [if_neg hq', if_neg hq', ih]

theorem applyAsctime_msg (f : Logfmter) (r : LogRecord) :
    (Logfmter.applyAsctime f r).msg = r.msg := by
  unfold Logfmter.applyAsctime
  split <;> rfl

theorem applyAsctime_excInfo (f : Logfmter) (r : LogRecord) :
    (Logfmter.applyAsctime f r).excInfo = r.excInfo := by
  unfold Logfmter.applyAsctime
  split <;> rfl

theorem applyAsctime_of_no_asctime {f : Logfmter} {r : LogRecord}
    (h : "asctime".toList ∉ f.keys ∧ "asctime".toList ∉ f.mapping.map Prod.snd) :
    Logfmter.applyAsctime f r = r := by
  unfold Logfmter.applyAsctime
  rw [if_neg]
  rintro (hc | hc)
  · exact h.1 hc
  · exact h.2 hc

theorem format_snd (f : Logfmter) (r : LogRecord) :
    (f.format r).2 = Logfmter.applyAsctime f r := rfl

theorem applyAsctime_alookup_ne (f : Logfmter) (r : LogRecord) {k : Str}
    (hk : k ≠ "asctime".toList) :
    alookup (Logfmter.applyAsctime f r).attrs k = alookup r.attrs k := by
  unfold Logfmter.applyAsctime
  split
  · exact alookup_dinsert_ne hk
  · rfl

/-- C1: the string escaper first replaces every double quote by
backslash-quote and every newline by the two characters backslash-n, then
wraps the result in double quotes if and only if the original text contained
a space or an equals sign, and returns the token `""` when the result is
empty (this pipeline is `escapeSpec`); in particular it is the identity on
every non-empty string containing no space, no equals sign, no double quote
and no newline. -/
theorem claim_C1_escape :
    (∀ s : Str, Logfmter.format_string s = escapeSpec s) ∧
    (∀ s : Str, s ≠ [] → ' ' ∉ s → '=' ∉ s → '"' ∉ s → '\n' ∉ s →
      Logfmter.format_string s = s) := by
  constructor
  · exact format_string_eq_escapeSpec
  · intro s hne hsp heq hdq hnl
    rw [format_string_eq_escapeSpec]
    simp only [escapeSpec]
    rw [pyReplace_of_not_mem hdq, pyReplace_of_not_mem hnl]
    have hq : ¬ ((hasChar s ' ' || hasChar s '=') = true) := by
      rw [Bool.or_eq_true, hasChar_iff, hasChar_iff]
      rintro (h | h)
      · exact hsp h
      · exact heq h
    rw [if_neg hq, if_neg hne]

theorem claim_C1_escape_witness :
    Logfmter.format_string "abc".toList = "abc".toList :=
  claim_C1_escape.2 ("abc".toList) (by decide) (by decide) (by decide)
    (by decide) (by decide)

/-- C2: `format_value` is total over the value model and applies its rules
in priority order: `None` maps to the zero-length string (not the quoted
empty token), booleans map to `true`/`false`, numbers map to their decimal
representation, and every other value maps to `format_string` of its string
form; in particular a value whose string form is `"="` is rendered as
`escape("=")`. -/
theorem claim_C2_format_value :
    Logfmter.format_value .null = [] ∧
    Logfmter.format_value (.bool true) = "true".toList ∧
    Logfmter.format_value (.bool false) = "false".toList ∧
    (∀ n : Int, Logfmter.format_value (.num n) = intToStr n) ∧
    Logfmter.format_value (.num 1) = "1".toList ∧
    (∀ s : Str, Logfmter.format_value (.str s) = Logfmter.format_string s) ∧
    Logfmter.format_value (.str "=".toList)
      = Logfmter.format_string "=".toList ∧
    Logfmter.format_value (.str "=".toList) = "\"=\"".toList ∧
    Logfmter.format_value .null ≠ Logfmter.format_string [] :=
  ⟨rfl, rfl, rfl, fun _ => rfl, by decide, fun _ => rfl, rfl, by decide,
    by decide⟩

/-- C3: when the record's message is a mapping, the parameter set is exactly
that mapping with every key normalized, assembled independently of the
record's attributes and exception info (ambient fields and reserved-field
filtering are bypassed); an empty structured message with the default
configuration and severity INFO renders exactly `at=INFO`. -/
theorem claim_C3_structured_message (r : LogRecord) (m : List (Str × Value))
    (h : r.msg = .dict m) :
    Logfmter.paramsOf r
      = m.foldl (fun d kv => dinsert d (Logfmter.normalize_key kv.1) kv.2) [] ∧
    (∀ attrs2 exc2, Logfmter.paramsOf ⟨r.msg, exc2, attrs2⟩
      = Logfmter.paramsOf r) ∧
    (Logfmter.default.format
      { msg := .dict [], excInfo := none,
        attrs := [("levelname".toList, .str "INFO".toList)] }).1
      = "at=INFO".toList := by
  refine ⟨?_, ?_, by decide⟩
  · simp only [Logfmter.paramsOf, h]
  · intro attrs2 exc2
    simp only [Logfmter.paramsOf, h]

theorem claim_C3_structured_message_witness :
    Logfmter.paramsOf ⟨.dict [("a".toList, .num 1)], none, []⟩
      = [("a".toList, Value.num 1)] :=
  ((claim_C3_structured_message ⟨.dict [("a".toList, .num 1)], none, []⟩
    [("a".toList, .num 1)] rfl).1).trans (by decide)

/-- C4: for a plain text message the parameter set is the synthetic `msg`
field holding the message text, followed by every non-reserved attribute in
attachment order with its key normalized (stated under the hypothesis that
the normalized keys are pairwise distinct and distinct from `msg`, so that
no dictionary collision occurs); the default configuration with severity
INFO, message `test` and ambient field `a=1` renders `at=INFO msg=test a=1`. -/
theorem claim_C4_plain_message (r : LogRecord) (s : Str)
    (hmsg : r.msg = .text s)
    (hnd : ((r.attrs.filter (fun kv => !(memStr RESERVED kv.1))).map
      (fun kv => Logfmter.normalize_key kv.1)).Nodup)
    (hfresh : "msg".toList ∉
      (r.attrs.filter (fun kv => !(memStr RESERVED kv.1))).map
        (fun kv => Logfmter.normalize_key kv.1)) :
    Logfmter.paramsOf r
      = ("msg".toList, Value.str s)
        :: (r.attrs.filter (fun kv => !(memStr RESERVED kv.1))).map
            (fun kv => (Logfmter.normalize_key kv.1, kv.2)) ∧
    (Logfmter.default.format
      { msg := .text "test".toList, excInfo := none,
        attrs := [("levelname".toList, .str "INFO".toList),
                  ("a".toList, .num 1)] }).1
      = "at=INFO msg=test a=1".toList := by
  refine ⟨?_, by decide⟩
  have hkeys : ((r.attrs.filter (fun kv => !(memStr RESERVED kv.1))).map
      (fun kv => (Logfmter.normalize_key kv.1, kv.2))).map Prod.fst
      = (r.attrs.filter (fun kv => !(memStr RESERVED kv.1))).map
          (fun kv => Logfmter.normalize_key kv.1) := by
    rw [List.map_map]
    rfl
  have hex : Logfmter.get_extra r
      = (r.attrs.filter (fun kv => !(memStr RESERVED kv.1))).map
          (fun kv => (Logfmter.normalize_key kv.1, kv.2)) := by
    unfold Logfmter.get_extra
    rw [foldl_dinsert_map]
    rw [foldl_dinsert_nodup _ ([] : List (Str × Value))
      (by rw [hkeys]; exact hnd)
      (fun k _ hmem => absurd hmem (List.not_mem_nil k))]
    rfl
  have hgm : LogRecord.getMessage r = s := by
    unfold LogRecord.getMessage
    rw [hmsg]
  simp only [Logfmter.paramsOf, hmsg, hgm]
  rw [hex]
  rw [foldl_dinsert_nodup _ _ (by rw [hkeys]; exact hnd) ?_]
  · rfl
  · intro k hk
    rw [hkeys] at hk
    intro hmem
    have : k = "msg".toList := by
      simpa [dinsert] using hmem
    exact hfresh (this ▸ hk)

theorem claim_C4_plain_message_witness :
    Logfmter.paramsOf
      { msg := .text "test".toList, excInfo := none,
        attrs := [("levelname".toList, .str "INFO".toList),
                  ("a".toList, .num 1)] }
      = [("msg".toList, Value.str "test".toList), ("a".toList, Value.num 1)] :=
  ((claim_C4_plain_message
    { msg := .text "test".toList, excInfo := none,
      attrs := [("levelname".toList, .str "INFO".toList),
                ("a".toList, .num 1)] }
    ("test".toList) rfl (by decide) (by decide)).1).trans (by decide)

/-- C5: each configured default key resolves its source attribute through
the mapping (the key itself when unmapped), is silently skipped when the
resolved attribute is absent from the record, and otherwise contributes the
token `key=format_value(value)`, in configuration order before the parameter
tokens; with `keys=["at","dne"]` and `dne` mapped to a missing attribute the
output for the structured message `{a: 1}` is `at=INFO a=1`. -/
theorem claim_C5_default_keys :
    (∀ (f : Logfmter) (attrs : List (Str × Value)),
      Logfmter.defaultTokens f attrs
        = f.keys.filterMap (fun key =>
            (alookup attrs (Logfmter.resolveAttr f key)).map
              (fun v => key ++ '=' :: Logfmter.format_value v))) ∧
    ((Logfmter.init ["at".toList, "dne".toList]
        [("at".toList, "levelname".toList), ("dne".toList, "?".toList)]
        none).format
      { msg := .dict [("a".toList, .num 1)], excInfo := none,
        attrs := [("levelname".toList, .str "INFO".toList)] }).1
      = "at=INFO a=1".toList :=
  ⟨defaultTokens_eq, by decide⟩

/-- C6 counterexample: the source strips ALL trailing newlines
(`value.rstrip("\n")`), not exactly one as the claim states: for an
`Exception` whose own message ends in a newline, the rendered trace ends in
two newlines and the two disagree. -/
theorem claim_C6_exc_info_counterexample :
    Logfmter.format_exc_info ⟨"Exception".toList, "alpha\n".toList, []⟩
      ≠ renderErrorSpec ⟨"Exception".toList, "alpha\n".toList, []⟩ := by
  decide

/-- C6 (amended): the error renderer produces the runtime's traceback text,
strips all trailing newlines (not exactly one), and escapes the result; the
token is appended last as `exc_info=<rendered>`, and an `Exception` with
message `alpha` and no stack frames yields a line ending in
`exc_info="Exception: alpha"`. -/
theorem claim_C6_exc_info (f : Logfmter) (r : LogRecord) (e : ExcInfo)
    (h : r.excInfo = some e) :
    (∀ e2 : ExcInfo, Logfmter.format_exc_info e2
        = Logfmter.format_string (rstripNl (renderExcText e2))) ∧
    List.IsSuffix ("exc_info=".toList ++ Logfmter.format_exc_info e)
      ((f.format r).1) ∧
    (Logfmter.default.format
      { msg := .text "alpha".toList,
        excInfo := some ⟨"Exception".toList, "alpha".toList, []⟩,
        attrs := [("levelname".toList, .str "INFO".toList)] }).1
      = "at=INFO msg=alpha exc_info=\"Exception: alpha\"".toList := by
  refine ⟨fun e2 => rfl, ?_, by decide⟩
  have hexc2 : (Logfmter.applyAsctime f r).excInfo = some e := by
    rw [applyAsctime_excInfo, h]
  show List.IsSuffix _ (List.intercalate [' ']
    (Logfmter.tokensOf f (Logfmter.applyAsctime f r)))
  simp only [Logfmter.tokensOf]
  rw [hexc2]
  rw [intercalate_append_single]
  split <;> split <;>
    first
      | exact List.suffix_refl _
      | exact ⟨_, rfl⟩

theorem claim_C6_exc_info_witness :
    List.IsSuffix ("exc_info=".toList ++ Logfmter.format_exc_info
        ⟨"Exception".toList, "alpha".toList, []⟩)
      ((Logfmter.default.format
        { msg := .text "alpha".toList,
          excInfo := some ⟨"Exception".toList, "alpha".toList, []⟩,
          attrs := [("levelname".toList, .str "INFO".toList)] }).1) :=
  (claim_C6_exc_info Logfmter.default
    { msg := .text "alpha".toList,
      excInfo := some ⟨"Exception".toList, "alpha".toList, []⟩,
      attrs := [("levelname".toList, .str "INFO".toList)] }
    ⟨"Exception".toList, "alpha".toList, []⟩ rfl).2.1

/-- C7 counterexample: `format` DOES mutate the record when the
configuration's default keys reference `asctime`: it stores the generated
timestamp on the record before rendering. -/
theorem claim_C7_mutation_counterexample :
    ((Logfmter.init ["asctime".toList] [] none).format
      { msg := .text "x".toList, excInfo := none, attrs := [] }).2
      ≠ { msg := Msg.text "x".toList, excInfo := none, attrs := [] } := by
  decide

/-- C7 (amended): `format` never mutates the record unless the configured
default keys or mapping targets reference `asctime`; even then only the
`asctime` attribute is written, and every other attribute, the message and
the exception info are unchanged. -/
theorem claim_C7_no_mutation (f : Logfmter) (r : LogRecord) :
    (("asctime".toList ∉ f.keys ∧ "asctime".toList ∉ f.mapping.map Prod.snd) →
      (f.format r).2 = r) ∧
    (f.format r).2.msg = r.msg ∧
    (f.format r).2.excInfo = r.excInfo ∧
    (∀ k, k ≠ "asctime".toList →
      alookup (f.format r).2.attrs k = alookup r.attrs k) := by
  refine ⟨?_, ?_, ?_, ?_⟩
  · intro h
    rw [format_snd, applyAsctime_of_no_asctime h]
  · rw [format_snd, applyAsctime_msg]
  · rw [format_snd, applyAsctime_excInfo]
  · intro k hk
    rw [format_snd, applyAsctime_alookup_ne f r hk]

theorem claim_C7_no_mutation_witness :
    (Logfmter.default.format
      { msg := .text "x".toList, excInfo := none,
        attrs := [("levelname".toList, .str "INFO".toList)] }).2
      = { msg := Msg.text "x".toList, excInfo := none,
          attrs := [("levelname".toList, Value.str "INFO".toList)] } :=
  (claim_C7_no_mutation Logfmter.default
    { msg := .text "x".toList, excInfo := none,
      attrs := [("levelname".toList, .str "INFO".toList)] }).1
    ⟨by decide, by decide⟩

/-- C8: for every configuration built through `__init__` and every record,
the formatted line contains no raw newline character, neither starts nor
ends with a space, is the single-space join of the token list in which every
token is non-empty (so no empty contribution can create two consecutive
spaces), and every string value containing a space or an equals sign is
rendered wrapped in double quotes. -/
theorem claim_C8_line_invariants (ks : List Str) (mp : List (Str × Str))
    (df : Option Str) (r : LogRecord) :
    '\n' ∉ ((Logfmter.init ks mp df).format r).1 ∧
    ((Logfmter.init ks mp df).format r).1.head? ≠ some ' ' ∧
    ((Logfmter.init ks mp df).format r).1.getLast? ≠ some ' ' ∧
    ((Logfmter.init ks mp df).format r).1
      = List.intercalate [' ']
          (Logfmter.tokensOf (Logfmter.init ks mp df)
            (Logfmter.applyAsctime (Logfmter.init ks mp df) r)) ∧
    (∀ t ∈ Logfmter.tokensOf (Logfmter.init ks mp df)
        (Logfmter.applyAsctime (Logfmter.init ks mp df) r), t ≠ []) ∧
    (∀ s : Str, (' ' ∈ s ∨ '=' ∈ s) →
      (Logfmter.format_value (.str s)).head? = some '"' ∧
      (Logfmter.format_value (.str s)).getLast? = some '"') := by
  have htok : ∀ t ∈ Logfmter.tokensOf (Logfmter.init ks mp df)
      (Logfmter.applyAsctime (Logfmter.init ks mp df) r), TokOk t :=
    tokOk_tokensOf
  have hjoin := tokOk_join htok
  exact ⟨hjoin.1, hjoin.2.1, hjoin.2.2, rfl, fun t ht => (htok t ht).1,
    fun s hs => format_string_quoted hs⟩

theorem claim_C8_line_invariants_witness :
    '\n' ∉ ((Logfmter.init ["at".toList]
        [("at".toList, "levelname".toList)] none).format
      { msg := .text "a b".toList, excInfo := none,
        attrs := [("levelname".toList, .str "INFO".toList)] }).1 ∧
    (Logfmter.format_value (.str "a b".toList)).head? = some '"' := by
  have h := claim_C8_line_invariants ["at".toList]
    [("at".toList, "levelname".toList)] none
    { msg := .text "a b".toList, excInfo := none,
      attrs := [("levelname".toList, .str "INFO".toList)] }
  exact ⟨h.1, (h.2.2.2.2.2 ("a b".toList) (Or.inl (by decide))).1⟩

/-- C9: `normalize_key` is total (a Lean function cannot raise), never
returns an empty key, maps the empty key to a single underscore, leaves no
space and no raw newline in the result (spaces become underscores, newlines
become the two-character escape), and leaves equals signs and double quotes
untouched (their counts are preserved). -/
theorem claim_C9_normalize_key :
    Logfmter.normalize_key [] = ['_'] ∧
    (∀ k : Str, Logfmter.normalize_key k ≠ []) ∧
    (∀ k : Str, ' ' ∉ Logfmter.normalize_key k) ∧
    (∀ k : Str, '\n' ∉ Logfmter.normalize_key k) ∧
    (∀ k : Str, (Logfmter.normalize_key k).count '=' = k.count '=') ∧
    (∀ k : Str, (Logfmter.normalize_key k).count '"' = k.count '"') ∧
    (∀ k : Str, k ≠ [] →
      (Logfmter.normalize_key k).count '_' = k.count '_' + k.count ' ') := by
  refine ⟨by decide, normalize_key_ne_nil, space_not_mem_normalize_key,
    newline_not_mem_normalize_key, ?_, ?_,
    fun k hk => count_underscore_normalize_key hk⟩
  · intro k
    exact count_normalize_key (by decide) (by decide) (by decide) (by decide)
      (by decide) k
  · intro k
    exact count_normalize_key (by decide) (by decide) (by decide) (by decide)
      (by decide) k

theorem claim_C9_normalize_key_witness :
    (Logfmter.normalize_key ("a b".toList)).count '_'
      = ("a b".toList).count '_' + ("a b".toList).count ' ' :=
  claim_C9_normalize_key.2.2.2.2.2.2 ("a b".toList) (by decide)

/-- C10: key normalization can collapse distinct field names: `"a b"` and
`"a_b"` are distinct yet normalize identically, and when both occur among
the record's ambient fields, or both inside a structured message mapping,
only a single token is emitted for the collapsed key, holding the
later-attached field's value. -/
theorem claim_C10_key_collision :
    ("a b".toList : Str) ≠ "a_b".toList ∧
    Logfmter.normalize_key "a b".toList
      = Logfmter.normalize_key "a_b".toList ∧
    (Logfmter.default.format
      { msg := .text "test".toList, excInfo := none,
        attrs := [("levelname".toList, .str "INFO".toList),
                  ("a b".toList, .num 1), ("a_b".toList, .num 2)] }).1
      = "at=INFO msg=test a_b=2".toList ∧
    (Logfmter.default.format
      { msg := .dict [("a b".toList, .num 1), ("a_b".toList, .num 2)],
        excInfo := none,
        attrs := [("levelname".toList, .str "INFO".toList)] }).1
      = "at=INFO a_b=2".toList :=
  ⟨by decide, by decide, by decide, by decide⟩
